import Mathlib

/-!
Verification development for the `merge-to-md` CLI tool (src/index.js).

The development shallowly embeds the pure core of the program:
  * `escapeLiteral` / `compileOne`   — the exclude-pattern fallback of
    `compileExcludeRegexes` (index.js lines 51-61),
  * `maxBacktickRun` / `fenceFor`    — fence selection (lines 144-150),
  * `extname` / `EXT_TO_LANG` / `getLangForFile` — language lookup (lines 69-98),
  * `walkDir` / `walkEnts`           — the recursive traversal `collectFiles`
    (lines 152-210), with the filesystem made explicit and recursion fuelled,
  * `buildContext`                   — assembly (lines 212-244),
  * `parseArgs` / `mainModel`        — the CLI glue (lines 8-32, 246-284).

JavaScript strings are Lean `String`s, byte buffers are `List Nat`, and the
filesystem is an association list from canonical (real) directory paths to
their entries together with a file-content map.  External routines that are
not part of the repository (the `isbinaryfile` package, UTF-8 decoding of
buffers) are parameters of the embedding.
-/

/-- The set of characters matched by the character class of the replacement
regex on index.js line 58, `[.*+?^${}()|[\\]` (the class closes at the first
unescaped `]`): the regex metacharacters plus `[` and backslash. -/
def isMeta (c : Char) : Bool :=
  (".*+?^$\x7b\x7d()|[\\".toList).contains c

/-- Core of the literal-escape fallback of `compileExcludeRegexes`
(index.js line 58): `s.replace(/[.*+?^${}()|[\\]\\\\]/g, "\\$&")`.
After the character class closes, the regex literal continues with
`\\ \\ ]`, so a match is a metacharacter followed by the three characters
`\`, `\`, `]`; the replacement prefixes the match with one backslash.
This function performs that global left-to-right replacement on the
character list of the pattern. -/
def escapeCore : List Char → List Char
  | [] => []
  | c :: a :: b :: d :: rest2 =>
    if isMeta c ∧ a = '\\' ∧ b = '\\' ∧ d = ']' then
      '\\' :: c :: a :: b :: d :: escapeCore rest2
    else
      c :: escapeCore (a :: b :: d :: rest2)
  | c :: rest => c :: escapeCore rest

/-- The string form of the escape fallback of index.js line 58. -/
def escapeLiteral (s : String) : String :=
  String.mk (escapeCore s.toList)

/-- One iteration of the `map` inside `compileExcludeRegexes`
(index.js lines 54-59): try to compile the pattern; on failure escape it with
`escapeLiteral` and compile the result.  `valid` abstracts which strings the
JavaScript `RegExp` constructor accepts; a second compilation failure is an
uncaught exception, modelled as `Except.error` carrying the pattern. -/
def compileOne (valid : String → Bool) (s : String) : Except String String :=
  if valid s then Except.ok s
  else if valid (escapeLiteral s) then Except.ok (escapeLiteral s)
  else Except.error s

/-- The backtick character. -/
def btChar : Char := Char.ofNat 96

/-- Scanner computing the longest maximal backtick run: `cur` is the length of
the current run, `best` the longest finished run. -/
def maxRunGo : List Char → Nat → Nat → Nat
  | [], cur, best => max best cur
  | c :: rest, cur, best =>
    if c = btChar then maxRunGo rest (cur + 1) best
    else maxRunGo rest 0 (max best cur)

/-- Length of the longest maximal run of backticks in a string: the value of
`matches.reduce((m, s) => Math.max(m, s.length), 0)` over
`content.match(/`+/g)` in `fenceFor` (index.js lines 146-148), with `0`
standing for the no-match (`null`) case. -/
def maxBacktickRun (s : String) : Nat :=
  maxRunGo s.toList 0 0

/-- `fenceFor` (index.js lines 144-150): if the content has no backtick run
(`match` returns `null`) the fence is three backticks, otherwise it is a run
of backticks one longer than the longest run in the content. -/
def fenceFor (content : String) : String :=
  if maxBacktickRun content = 0 then "```"
  else String.mk (List.replicate (maxBacktickRun content + 1) btChar)

/-- The static extension-to-language table `EXT_TO_LANG` (index.js lines
69-93), transcribed entry for entry in source order. -/
def EXT_TO_LANG : List (String × String) :=
  [(".js", "javascript"), (".mjs", "javascript"), (".cjs", "javascript"),
   (".ts", "typescript"), (".tsx", "tsx"), (".jsx", "jsx"),
   (".py", "python"), (".rb", "ruby"), (".java", "java"), (".c", "c"),
   (".cpp", "cpp"), (".cc", "cpp"), (".h", "c"), (".hpp", "cpp"),
   (".go", "go"), (".rs", "rust"), (".php", "php"), (".html", "html"),
   (".css", "css"), (".json", "json"), (".md", "markdown"),
   (".sh", "bash"), (".bash", "bash"), (".zsh", "bash"), (".yml", "yaml"),
   (".yaml", "yaml"), (".xml", "xml"), (".swift", "swift"),
   (".kt", "kotlin"), (".kts", "kotlin"), (".r", "r"), (".pl", "perl"),
   (".sql", "sql"), (".txt", ""), (".text", ""),
   (".cs", "csharp"), (".vb", "vbnet"), (".fs", "fsharp"),
   (".scala", "scala"), (".clj", "clojure"), (".cljs", "clojure"),
   (".ex", "elixir"), (".exs", "elixir"), (".erl", "erlang"),
   (".hrl", "erlang"), (".hs", "haskell"), (".lhs", "haskell"),
   (".ml", "ocaml"), (".mli", "ocaml"), (".lua", "lua"), (".dart", "dart"),
   (".m", "objective-c"), (".mm", "objective-c"),
   (".vim", "vim"), (".vimrc", "vim"), (".fish", "fish"),
   (".ps1", "powershell"), (".psm1", "powershell"),
   (".dockerfile", "dockerfile"), (".makefile", "makefile"),
   (".mk", "makefile"), (".cmake", "cmake"),
   (".gradle", "gradle"), (".groovy", "groovy"), (".gvy", "groovy"),
   (".properties", "properties"), (".ini", "ini"),
   (".toml", "toml"), (".cfg", "ini"), (".conf", "apache"),
   (".htaccess", "apache"), (".nginx", "nginx"),
   (".proto", "protobuf"), (".graphql", "graphql"), (".gql", "graphql"),
   (".scss", "scss"), (".sass", "sass"),
   (".less", "less"), (".styl", "stylus"), (".vue", "vue"),
   (".svelte", "svelte"), (".astro", "astro"),
   (".jinja", "jinja2"), (".jinja2", "jinja2"), (".j2", "jinja2"),
   (".hbs", "handlebars"), (".mustache", "mustache"),
   (".pug", "pug"), (".jade", "pug"), (".ejs", "ejs"), (".erb", "erb"),
   (".haml", "haml"),
   (".tex", "latex"), (".bib", "bibtex"), (".diff", "diff"),
   (".patch", "diff"), (".log", "log"),
   (".asm", "assembly"), (".s", "assembly"), (".nasm", "nasm"),
   (".masm", "masm"),
   (".sol", "solidity"), (".move", "move"), (".cairo", "cairo"),
   (".vyper", "vyper"),
   (".lean", "lean"), (".agda", "agda"), (".coq", "coq"),
   (".v", "verilog"), (".sv", "systemverilog"),
   (".vhd", "vhdl"), (".vhdl", "vhdl"), (".tcl", "tcl"), (".awk", "awk"),
   (".sed", "sed"),
   (".xquery", "xquery"), (".xq", "xquery"), (".sparql", "sparql"),
   (".rq", "sparql"),
   (".dockerfile.*", "dockerfile"), (".env", "bash"), (".envrc", "bash"),
   (".bashrc", "bash"), (".zshrc", "bash")]

/-- The characters of the last `/`-separated segment of a path: the basename
a POSIX `path.extname` operates on. -/
def lastSegment (l : List Char) : List Char :=
  l.foldl (fun acc c => if c = '/' then [] else acc ++ [c]) []

/-- The suffix of a character list starting at its last dot, if any. -/
def afterLastDot : List Char → Option (List Char)
  | [] => none
  | c :: rest =>
    match afterLastDot rest with
    | some r => some r
    | none => if c = '.' then some (c :: rest) else none

/-- Models Node's POSIX `path.extname` as used on index.js line 96: the
basename's suffix from its last dot, except that a dot in the leading
position yields no extension (`.bashrc` has extension `""`, `a.` has
extension `"."`).  The model covers basenames that are not made purely of
dots and paths without trailing slashes, which is all the program ever
passes. -/
def extname (p : String) : String :=
  match lastSegment p.toList with
  | [] => ""
  | c :: rest =>
    if c = '.' then String.mk ((afterLastDot rest).getD [])
    else String.mk ((afterLastDot (c :: rest)).getD [])

/-- JavaScript's `toLowerCase`, modelled characterwise for ASCII text such as
file extensions. -/
def lowerStr (s : String) : String :=
  String.mk (s.toList.map Char.toLower)

/-- `getLangForFile` (index.js lines 95-98): look the lower-cased extension up
in `EXT_TO_LANG`; unmapped extensions give the empty tag.  `hasOwnProperty`
followed by indexing is modelled by `List.lookup` with default `""`. -/
def getLangForFile (filePath : String) : String :=
  match EXT_TO_LANG.lookup (lowerStr (extname filePath)) with
  | some v => v
  | none => ""

theorem afterLastDot_eq_none : ∀ l : List Char, '.' ∉ l → afterLastDot l = none := by
  intro l h
  induction l with
  | nil => rfl
  | cons c r ih =>
    have hc : ¬ (c = '.') := by
      intro e
      exact h (by simp [e])
    have hr : '.' ∉ r := fun m => h (List.mem_cons_of_mem _ m)
    simp [afterLastDot, ih hr, hc]

/-- C1: the claim states that every exclude pattern that fails to compile is
escaped and recompiled into a literal-substring rule, so that the run never
aborts.  In the code the replacement regex of line 58 only matches a
metacharacter that is immediately followed by the three characters `\ \ ]`,
so a plain malformed pattern such as `"("` is returned unchanged by the
escape, the second `new RegExp` throws the same error outside of any `try`,
and the run aborts.  `valid` abstracts the set of strings accepted by the
JavaScript `RegExp` constructor; the hypothesis records that `"("` (an
unterminated group) is rejected by it. -/
theorem c1_escape_fallback_broken (valid : String → Bool)
    (h : valid "(" = false) : compileOne valid "(" = Except.error "(" := by
  have he : escapeLiteral "(" = "(" := by decide
  simp [compileOne, h, he]

/-- C1 witness: a concrete validity predicate rejecting `"("` hits the
uncaught-error branch. -/
theorem c1_escape_fallback_broken_witness :
    compileOne (fun s => decide (s ≠ "(")) "(" = Except.error "(" :=
  c1_escape_fallback_broken (fun s => decide (s ≠ "(")) (by decide)

/-- C2 counterexample: the claim requires the fence never to be shorter than
three backticks, in particular on content holding a single backtick; but
`fenceFor` applied to a one-backtick content returns a two-backtick fence
(the minimum of three only applies when the content has no backtick at
all). -/
theorem c2_counterexample_single_backtick :
    (fenceFor "`").length = 2 ∧ ¬ (3 ≤ (fenceFor "`").length) := by decide

/-- C2 (amended): the fence chosen by the assembler is exactly one backtick
longer than the longest maximal backtick run of the content whenever the
content contains a backtick — with no lower bound of three, so a longest run
of one yields a fence of two — and is exactly three backticks when the
content contains none. -/
theorem c2_fence_length (s : String) :
    (fenceFor s).length =
      if maxBacktickRun s = 0 then 3 else maxBacktickRun s + 1 := by
  by_cases h : maxBacktickRun s = 0
  · have hf : fenceFor s = "```" := by simp [fenceFor, h]
    rw [hf, if_pos h]
    decide
  · have hf : fenceFor s = String.mk (List.replicate (maxBacktickRun s + 1) btChar) := by
      simp [fenceFor, h]
    rw [hf, if_neg h]
    simp [String.length]

/-- C10: for every file whose basename starts with a dot and contains no
further dot, `path.extname` returns the empty string, so `getLangForFile`
falls through to the empty tag even though `EXT_TO_LANG` holds entries keyed
by exactly those basenames (`.bashrc`, `.env`, `.envrc`, `.zshrc`,
`.htaccess`). -/
theorem c10_dotfile_lang_is_empty :
    (∀ (p : String) (rest : List Char),
        lastSegment p.toList = '.' :: rest → '.' ∉ rest →
        getLangForFile p = "") ∧
    EXT_TO_LANG.lookup ".bashrc" = some "bash" ∧
    EXT_TO_LANG.lookup ".env" = some "bash" ∧
    EXT_TO_LANG.lookup ".envrc" = some "bash" ∧
    EXT_TO_LANG.lookup ".zshrc" = some "bash" ∧
    EXT_TO_LANG.lookup ".htaccess" = some "apache" := by
  refine ⟨?_, by decide, by decide, by decide, by decide, by decide⟩
  intro p rest hseg hdot
  have hnone : afterLastDot rest = none := afterLastDot_eq_none rest hdot
  have hext : extname p = "" := by
    unfold extname
    rw [hseg]
    simp [hnone]
  rw [getLangForFile, hext]
  decide

/-- C10 witness: `.bashrc` renders untagged. -/
theorem c10_dotfile_lang_is_empty_witness :
    getLangForFile "/home/user/.bashrc" = "" :=
  c10_dotfile_lang_is_empty.1 "/home/user/.bashrc" "bashrc".toList
    (by decide) (by decide)

/-- What `fs.promises.stat` / `fs.promises.realpath` yield for a symbolic
link in the traversal (index.js lines 185-202): the stat may throw
(`broken`, also covering targets that are neither files nor directories,
which the code ignores), resolve to a regular file, or resolve to a
directory whose canonical real path is recorded. -/
inductive SymRes where
  | broken : SymRes
  | toFile : SymRes
  | toDir : String → SymRes
deriving DecidableEq

/-- A directory entry as returned by `fs.promises.readdir(dir,
{ withFileTypes: true })`: a regular file, a regular directory, a symbolic
link, or another kind of entry (socket, fifo, ...) that matches none of the
three `ent.is*` tests. -/
inductive DirEnt where
  | file : String → DirEnt
  | dir : String → DirEnt
  | symlink : String → SymRes → DirEnt
  | other : String → DirEnt
deriving DecidableEq

def DirEnt.name : DirEnt → String
  | DirEnt.file n => n
  | DirEnt.dir n => n
  | DirEnt.symlink n _ => n
  | DirEnt.other n => n

/-- Sort key of the entry comparator
`(a, b) => a.name.localeCompare(b.name, undefined, { sensitivity: "base" })`
(index.js line 171), modelled for ASCII names as the code-point sequence of
the lower-cased name. -/
def entKey (e : DirEnt) : List Nat :=
  (DirEnt.name e).toList.map (fun c => (Char.toLower c).toNat)

/-- Lexicographic comparison of sort keys: the boolean form of the
comparator returning a non-positive value. -/
def keyLe : List Nat → List Nat → Bool
  | [], _ => true
  | x :: xs, ys =>
    match ys with
    | [] => false
    | y :: tl => if x = y then keyLe xs tl else decide (x < y)

/-- The non-strict entry order induced by the comparator of index.js
line 171. -/
def entR (a b : DirEnt) : Prop :=
  keyLe (entKey a) (entKey b) = true

instance : DecidableRel entR := by
  intro a b
  unfold entR
  infer_instance

/-- The entry sort of index.js lines 169-171: a stable sort by the
case-insensitive name key.  A stable sort is uniquely determined by its
comparator, so insertion sort models the stable `entries.slice().sort(...)`
of the source exactly. -/
def sortEnts (l : List DirEnt) : List DirEnt :=
  List.insertionSort entR l

/-- A `FileReference` as pushed by the traversal (index.js lines 184, 197):
the absolute path `full` and the root-relative path, kept as its list of
`/`-separated segments. -/
structure FileRef where
  full : String
  relSegs : List String
deriving DecidableEq

/-- The forward-slash relative path string
`path.relative(resolvedRoot, full).split(path.sep).join('/')` of index.js
line 175: since `full` is always built by `path.join`ing entry names onto
the resolved root, the relative path is the `/`-join of those names. -/
def relStr (segs : List String) : String :=
  String.intercalate "/" segs

def FileRef.rel (f : FileRef) : String :=
  relStr f.relSegs

/-- JavaScript's `String.prototype.startsWith`, used for the containment
check `resolvedPath.startsWith(resolvedRoot)` of index.js line 191,
modelled as character-list prefix. -/
def strStartsWith (s pre : String) : Bool :=
  pre.toList.isPrefixOf s.toList

/-- `matchesAnyRegex` (index.js lines 63-65); a compiled `RegExp` is its
unanchored test predicate on strings. -/
def matchesAnyRegex (str : String) (regexes : List (String → Bool)) : Bool :=
  regexes.any (fun r => r str)

/-- The `currentDepth > maxDepth` guard of index.js line 157; `none` models
the default `Infinity` (and `NaN`, for which the comparison is also always
false). -/
def depthExceeded (maxDepth : Option Nat) (depth : Nat) : Bool :=
  match maxDepth with
  | none => false
  | some m => decide (m < depth)

/-- The filesystem's directory table: each canonical (real) directory path
maps to the entry list `readdir` returns for it, in filesystem order.  A
path with no row models a `readdir` failure (caught on index.js lines
164-167 and treated as an empty subtree). -/
def findDir : List (String × List DirEnt) → String → Option (List DirEnt)
  | [], _ => none
  | (k, v) :: rest, r => if k = r then some v else findDir rest r

/-- The body of the `for (const ent of sortedEntries)` loop of `walk`
(index.js lines 173-204), parameterized by the recursive call `recur` used
for subdirectories and followed directory symlinks.  `full` is the joined
path, `real` its canonical path (the two differ below a followed symlink),
`segs` the relative-path segments.  `none` signals fuel exhaustion of the
recursion; the source has no fuel and simply may not terminate. -/
def walkEnt (recur : String → String → List String → Nat → Option (List FileRef))
    (excl : List (String → Bool)) (follow : Bool) (root : String)
    (e : DirEnt) (full real : String) (segs : List String) (depth : Nat) :
    Option (List FileRef) :=
  let n := DirEnt.name e
  let full' := full ++ "/" ++ n
  let segs' := segs ++ [n]
  if matchesAnyRegex (relStr segs') excl || matchesAnyRegex full' excl then
    some []
  else
    match e with
    | DirEnt.file _ => some [⟨full', segs'⟩]
    | DirEnt.dir _ => recur full' (real ++ "/" ++ n) segs' (depth + 1)
    | DirEnt.symlink _ res =>
      if follow then
        match res with
        | SymRes.broken => some []
        | SymRes.toFile => some [⟨full', segs'⟩]
        | SymRes.toDir target =>
          if strStartsWith target root then recur full' target segs' (depth + 1)
          else some []
      else some []
    | DirEnt.other _ => some []

/-- The `for (const ent of sortedEntries)` loop itself: the concatenation of
the contributions of the sorted entries, in order ( `files.push` appends, so
the result list is the left-to-right concatenation). -/
def walkEnts (recur : String → String → List String → Nat → Option (List FileRef))
    (excl : List (String → Bool)) (follow : Bool) (root : String) :
    List DirEnt → String → String → List String → Nat → Option (List FileRef)
  | [], _, _, _, _ => some []
  | e :: es, full, real, segs, depth =>
    match walkEnt recur excl follow root e full real segs depth with
    | none => none
    | some hs =>
      match walkEnts recur excl follow root es full real segs depth with
      | none => none
      | some ts => some (hs ++ ts)

/-- The recursive `walk` of `collectFiles` (index.js lines 156-205), with
explicit fuel: each directory visit consumes one unit, `none` means the
fuel ran out before the traversal finished.  A visit checks the depth
guard, reads the directory (a missing row is a caught read error: empty
subtree), sorts the entries and runs the entry loop. -/
def walkDir (fs : List (String × List DirEnt)) (excl : List (String → Bool))
    (maxDepth : Option Nat) (follow : Bool) (root : String) :
    Nat → String → String → List String → Nat → Option (List FileRef)
  | 0, _, _, _, _ => none
  | fuel + 1, full, real, segs, depth =>
    if depthExceeded maxDepth depth then some []
    else
      match findDir fs real with
      | none => some []
      | some entries =>
        walkEnts (fun a b c d => walkDir fs excl maxDepth follow root fuel a b c d)
          excl follow root (sortEnts entries) full real segs depth

/-- `collectFiles(root, excludeRegexes, maxDepth, followSymlinks)`
(index.js lines 152-210): run `walk` from the resolved root (`path.resolve`
is the identity on the absolute root paths used here) at depth 0. -/
def collectFiles (fs : List (String × List DirEnt)) (excl : List (String → Bool))
    (maxDepth : Option Nat) (follow : Bool) (root : String) (fuel : Nat) :
    Option (List FileRef) :=
  walkDir fs excl maxDepth follow root fuel root root [] 0

/-- A root directory `/r` containing a regular file and a symbolic link
`link` that resolves back to `/r` itself — the canonical symlink cycle. -/
def cycleFS : List (String × List DirEnt) :=
  [("/r", [DirEnt.symlink "link" (SymRes.toDir "/r"), DirEnt.file "a.txt"])]

theorem walkCyc_none : ∀ (fuel : Nat) (full : String) (segs : List String) (depth : Nat),
    walkDir cycleFS [] none true "/r" fuel full "/r" segs depth = none := by
  intro fuel
  induction fuel with
  | zero => intro full segs depth; rfl
  | succ n ih =>
    intro full segs depth
    have hf : findDir cycleFS "/r" =
        some [DirEnt.symlink "link" (SymRes.toDir "/r"), DirEnt.file "a.txt"] := rfl
    have hs : sortEnts [DirEnt.symlink "link" (SymRes.toDir "/r"), DirEnt.file "a.txt"] =
        [DirEnt.file "a.txt", DirEnt.symlink "link" (SymRes.toDir "/r")] := by decide
    have hd : depthExceeded none depth = false := rfl
    have hw : strStartsWith "/r" "/r" = true := rfl
    simp [walkDir, walkEnts, walkEnt, hf, hs, hd, hw, matchesAnyRegex, ih]

/-- C7: the claim states the traversal with `followSymlinks` terminates on
every finite tree, including one where a symlink inside the root resolves to
the root itself.  It does not: on `cycleFS` the prefix check
`resolvedPath.startsWith(resolvedRoot)` passes (the real path is the root),
`walk` recurses into `/r/link`, `/r/link/link`, ... without bound, and no
amount of fuel lets `collectFiles` return.  The code's own comment `Check
for circular references by comparing resolved paths` (line 189) claims this
cycle is guarded against. -/
theorem c7_symlink_cycle_diverges :
    ∀ fuel : Nat, collectFiles cycleFS [] none true "/r" fuel = none :=
  fun fuel => walkCyc_none fuel "/r" [] 0

theorem mem_sortEnts {e : DirEnt} {l : List DirEnt} : e ∈ sortEnts l ↔ e ∈ l :=
  (List.perm_insertionSort entR l).mem_iff

theorem findDir_mem {fs : List (String × List DirEnt)} {r : String}
    {l : List DirEnt} (h : findDir fs r = some l) : (r, l) ∈ fs := by
  induction fs with
  | nil => exact absurd h (by simp [findDir])
  | cons p rest ih =>
    rw [findDir] at h
    split at h
    · rename_i hk
      have hl : l = p.2 := (Option.some.inj h).symm
      subst hl
      subst hk
      exact List.mem_cons_self _ _
    · exact List.mem_cons_of_mem _ (ih h)

/-- Case analysis on the contribution of one entry: it is empty (excluded,
broken or escaping symlink, other entry kind), a single FileRef whose
relative segments extend `segs` by the entry's name, or the result of the
recursive call at those extended segments. -/
theorem walkEnt_cases {recur : String → String → List String → Nat → Option (List FileRef)}
    {excl : List (String → Bool)} {follow : Bool} {root : String}
    {e : DirEnt} {full real : String} {segs : List String} {depth : Nat}
    {res : List FileRef}
    (h : walkEnt recur excl follow root e full real segs depth = some res) :
    res = [] ∨
    res = [⟨full ++ "/" ++ DirEnt.name e, segs ++ [DirEnt.name e]⟩] ∨
    ∃ real', recur (full ++ "/" ++ DirEnt.name e) real'
        (segs ++ [DirEnt.name e]) (depth + 1) = some res := by
  cases e with
  | file n =>
    simp only [walkEnt] at h
    split at h
    · exact Or.inl (Option.some.inj h).symm
    · exact Or.inr (Or.inl (Option.some.inj h).symm)
  | dir n =>
    simp only [walkEnt] at h
    split at h
    · exact Or.inl (Option.some.inj h).symm
    · exact Or.inr (Or.inr ⟨real ++ "/" ++ DirEnt.name (DirEnt.dir n), h⟩)
  | symlink n r =>
    cases r with
    | broken =>
      simp only [walkEnt] at h
      split at h
      · exact Or.inl (Option.some.inj h).symm
      · split at h
        · exact Or.inl (Option.some.inj h).symm
        · exact Or.inl (Option.some.inj h).symm
    | toFile =>
      simp only [walkEnt] at h
      split at h
      · exact Or.inl (Option.some.inj h).symm
      · split at h
        · exact Or.inr (Or.inl (Option.some.inj h).symm)
        · exact Or.inl (Option.some.inj h).symm
    | toDir target =>
      simp only [walkEnt] at h
      split at h
      · exact Or.inl (Option.some.inj h).symm
      · split at h
        · split at h
          · exact Or.inr (Or.inr ⟨target, h⟩)
          · exact Or.inl (Option.some.inj h).symm
        · exact Or.inl (Option.some.inj h).symm
  | other n =>
    simp only [walkEnt] at h
    split at h
    · exact Or.inl (Option.some.inj h).symm
    · exact Or.inl (Option.some.inj h).symm

theorem walkEnts_no_dotdot
    {recur : String → String → List String → Nat → Option (List FileRef)}
    (excl : List (String → Bool)) (follow : Bool) (root : String)
    (Hrec : ∀ full real segs depth res, (∀ s ∈ segs, s ≠ "..") →
        recur full real segs depth = some res →
        ∀ f ∈ res, ∀ s ∈ f.relSegs, s ≠ "..") :
    ∀ (es : List DirEnt) (full real : String) (segs : List String)
      (depth : Nat) (res : List FileRef),
      (∀ e ∈ es, DirEnt.name e ≠ "..") → (∀ s ∈ segs, s ≠ "..") →
      walkEnts recur excl follow root es full real segs depth = some res →
      ∀ f ∈ res, ∀ s ∈ f.relSegs, s ≠ ".." := by
  intro es
  induction es with
  | nil =>
    intro full real segs depth res _ _ h
    simp only [walkEnts] at h
    cases Option.some.inj h
    simp
  | cons e es ih =>
    intro full real segs depth res hnames hsegs h
    simp only [walkEnts] at h
    cases hE : walkEnt recur excl follow root e full real segs depth with
    | none => rw [hE] at h; exact absurd h (by simp)
    | some hs =>
      rw [hE] at h
      cases hT : walkEnts recur excl follow root es full real segs depth with
      | none => rw [hT] at h; exact absurd h (by simp)
      | some ts =>
        rw [hT] at h
        cases Option.some.inj h
        intro f hf
        have hsegs' : ∀ s ∈ segs ++ [DirEnt.name e], s ≠ ".." := by
          intro s hsmem
          rcases List.mem_append.1 hsmem with h1 | h1
          · exact hsegs s h1
          · rw [List.mem_singleton.1 h1]
            exact hnames e (List.mem_cons_self _ _)
        rcases List.mem_append.1 hf with hf | hf
        · rcases walkEnt_cases hE with rfl | rfl | ⟨real', hrec⟩
          · cases hf
          · rw [List.mem_singleton.1 hf]
            intro s hsmem
            exact hsegs' s hsmem
          · exact Hrec _ _ _ _ _ hsegs' hrec f hf
        · exact ih full real segs depth ts
            (fun e' he' => hnames e' (List.mem_cons_of_mem _ he')) hsegs hT f hf

theorem walkDir_no_dotdot (fs : List (String × List DirEnt))
    (excl : List (String → Bool)) (maxDepth : Option Nat) (follow : Bool)
    (root : String)
    (hfs : ∀ p ∈ fs, ∀ e ∈ p.2, DirEnt.name e ≠ "..") :
    ∀ (fuel : Nat) (full real : String) (segs : List String) (depth : Nat)
      (res : List FileRef),
      (∀ s ∈ segs, s ≠ "..") →
      walkDir fs excl maxDepth follow root fuel full real segs depth = some res →
      ∀ f ∈ res, ∀ s ∈ f.relSegs, s ≠ ".." := by
  intro fuel
  induction fuel with
  | zero => intro full real segs depth res _ h; exact absurd h (by simp [walkDir])
  | succ n ih =>
    intro full real segs depth res hsegs h
    simp only [walkDir] at h
    split at h
    · cases Option.some.inj h
      simp
    · cases hD : findDir fs real with
      | none => rw [hD] at h; cases Option.some.inj h; simp
      | some entries =>
        rw [hD] at h
        have hnames : ∀ e ∈ sortEnts entries, DirEnt.name e ≠ ".." := by
          intro e he
          exact hfs (real, entries) (findDir_mem hD) e (mem_sortEnts.1 he)
        exact walkEnts_no_dotdot excl follow root
          (fun a b c d r hg hr => ih a b c d r hg hr)
          (sortEnts entries) full real segs depth res hnames hsegs h

/-- C6: every FileReference produced by the traversal has a relative path
with no `..` segment, for every filesystem whose directory entries carry
plain names — in particular for a followed symlink whose real path merely
shares a textual prefix with the root (such as `/data2` under root `/data`),
because the recursion always continues on the `path.join`ed link path, never
on the resolved target path. -/
theorem c6_rel_paths_never_escape (fs : List (String × List DirEnt))
    (excl : List (String → Bool)) (maxDepth : Option Nat) (follow : Bool)
    (root : String) (fuel : Nat) (res : List FileRef)
    (hfs : ∀ p ∈ fs, ∀ e ∈ p.2, DirEnt.name e ≠ "..")
    (h : collectFiles fs excl maxDepth follow root fuel = some res) :
    ∀ f ∈ res, ".." ∉ f.relSegs := by
  intro f hf hmem
  exact walkDir_no_dotdot fs excl maxDepth follow root hfs fuel root root [] 0 res
    (by simp) h f hf ".." hmem rfl

/-- The prefix-collision scenario of the claim: root `/data` holds a file
and a symlink resolving to `/data2`, which passes the `startsWith` guard. -/
def prefixFS : List (String × List DirEnt) :=
  [("/data", [DirEnt.symlink "esc" (SymRes.toDir "/data2"), DirEnt.file "a.txt"]),
   ("/data2", [DirEnt.file "secret.txt"])]

/-- C6 witness: on the `/data`-versus-`/data2` scenario the traversal emits
`esc/secret.txt` — inside-root segments, no `..`. -/
theorem c6_rel_paths_never_escape_witness :
    ".." ∉ (FileRef.mk "/data/esc/secret.txt" ["esc", "secret.txt"]).relSegs :=
  c6_rel_paths_never_escape prefixFS [] none true "/data" 5
    [⟨"/data/a.txt", ["a.txt"]⟩, ⟨"/data/esc/secret.txt", ["esc", "secret.txt"]⟩]
    (by decide) (by decide)
    (FileRef.mk "/data/esc/secret.txt" ["esc", "secret.txt"]) (by decide)

theorem keyLe_total : ∀ a b : List Nat, keyLe a b = true ∨ keyLe b a = true := by
  intro a
  induction a with
  | nil => intro b; exact Or.inl rfl
  | cons x xs ih =>
    intro b
    cases b with
    | nil => exact Or.inr rfl
    | cons y ys =>
      by_cases hxy : x = y
      · subst hxy
        rcases ih ys with h | h
        · exact Or.inl (by simp [keyLe, h])
        · exact Or.inr (by simp [keyLe, h])
      · rcases Nat.lt_or_ge x y with h | h
        · exact Or.inl (by simp [keyLe, hxy, h])
        · have hyx : ¬ y = x := fun e => hxy e.symm
          have hlt : y < x := lt_of_le_of_ne h hyx
          exact Or.inr (by simp [keyLe, hyx, hlt])

theorem keyLe_antisymm : ∀ a b : List Nat, keyLe a b = true → keyLe b a = true → a = b := by
  intro a
  induction a with
  | nil =>
    intro b h1 h2
    cases b with
    | nil => rfl
    | cons y ys => simp [keyLe] at h2
  | cons x xs ih =>
    intro b h1 h2
    cases b with
    | nil => simp [keyLe] at h1
    | cons y ys =>
      by_cases hxy : x = y
      · subst hxy
        simp only [keyLe, if_pos rfl] at h1 h2
        rw [ih ys h1 h2]
      · have hyx : ¬ y = x := fun e => hxy e.symm
        simp [keyLe, hxy] at h1
        simp [keyLe, hyx] at h2
        omega

theorem keyLe_trans : ∀ a b c : List Nat,
    keyLe a b = true → keyLe b c = true → keyLe a c = true := by
  intro a
  induction a with
  | nil => intro b c _ _; rfl
  | cons x xs ih =>
    intro b c h1 h2
    cases b with
    | nil => simp [keyLe] at h1
    | cons y ys =>
      cases c with
      | nil => simp [keyLe] at h2
      | cons z zs =>
        by_cases hxy : x = y <;> by_cases hyz : y = z
        · subst hxy; subst hyz
          simp only [keyLe, if_pos rfl] at h1 h2 ⊢
          exact ih ys zs h1 h2
        · subst hxy
          simp only [keyLe, if_neg hyz] at h2
          simp only [keyLe, if_neg hyz]
          exact h2
        · subst hyz
          simp only [keyLe, if_neg hxy] at h1
          simp only [keyLe, if_neg hxy]
          exact h1
        · simp [keyLe, hxy] at h1
          simp [keyLe, hyz] at h2
          have hxz : x < z := Nat.lt_trans h1 h2
          simp [keyLe, Nat.ne_of_lt hxz, hxz]

instance : IsTotal DirEnt entR :=
  ⟨fun a b => keyLe_total (entKey a) (entKey b)⟩

instance : IsTrans DirEnt entR :=
  ⟨fun _ _ _ h1 h2 => keyLe_trans _ _ _ h1 h2⟩

/-- Two entries have distinct sort keys: names that differ even after
lower-casing — no case-insensitive collision. -/
def keyNe (a b : DirEnt) : Prop := entKey a ≠ entKey b

instance : DecidableRel keyNe := by
  intro a b
  unfold keyNe
  infer_instance

theorem sortEnts_sorted (l : List DirEnt) : List.Sorted entR (sortEnts l) :=
  List.sorted_insertionSort entR l

theorem sortEnts_perm (l : List DirEnt) : List.Perm (sortEnts l) l :=
  List.perm_insertionSort entR l

/-- Two sorted permutations of each other with pairwise distinct keys are
equal: the comparator order is uniquely realizable when there are no
ties. -/
theorem sorted_perm_distinct_eq :
    ∀ {l₁ l₂ : List DirEnt}, List.Perm l₁ l₂ → List.Sorted entR l₁ →
      List.Sorted entR l₂ → List.Pairwise keyNe l₁ → l₁ = l₂ := by
  intro l₁
  induction l₁ with
  | nil =>
    intro l₂ hp _ _ _
    exact hp.nil_eq
  | cons x xs ih =>
    intro l₂ hp hs1 hs2 hd
    cases l₂ with
    | nil => exact absurd hp.symm.nil_eq (by simp)
    | cons y ys =>
      have hxy : x = y := by
        have hx2 : x ∈ y :: ys := hp.mem_iff.1 (List.mem_cons_self _ _)
        have hy1 : y ∈ x :: xs := hp.mem_iff.2 (List.mem_cons_self _ _)
        rcases List.mem_cons.1 hx2 with h | hx2'
        · exact h
        rcases List.mem_cons.1 hy1 with h | hy1'
        · exact h.symm
        have hr1 : entR x y := (List.sorted_cons.1 hs1).1 y hy1'
        have hr2 : entR y x := (List.sorted_cons.1 hs2).1 x hx2'
        have hkey : entKey x = entKey y := keyLe_antisymm _ _ hr1 hr2
        have hne : keyNe x y := (List.pairwise_cons.1 hd).1 y hy1'
        exact absurd hkey hne
      subst hxy
      have hp' : List.Perm xs ys := hp.cons_inv
      rw [ih hp' (List.sorted_cons.1 hs1).2 (List.sorted_cons.1 hs2).2
        (List.pairwise_cons.1 hd).2]

/-- Sorting is invariant under permutation of the input when the keys are
pairwise distinct: with no comparator ties, the readdir order cannot
influence the sorted entry list. -/
theorem sortEnts_congr {l l' : List DirEnt} (hp : List.Perm l l')
    (hd : List.Pairwise keyNe l) : sortEnts l = sortEnts l' := by
  have h1 : List.Perm (sortEnts l) (sortEnts l') :=
    (sortEnts_perm l).trans (hp.trans (sortEnts_perm l').symm)
  have hd1 : List.Pairwise keyNe (sortEnts l) :=
    (List.Perm.pairwise_iff (fun h e => h e.symm) (sortEnts_perm l)).2 hd
  exact sorted_perm_distinct_eq h1 (sortEnts_sorted l) (sortEnts_sorted l') hd1

/-- Unfolding: a visit with remaining fuel, open depth guard and readable
directory runs the entry loop on the sorted entries. -/
theorem walkDir_succ_some {fs : List (String × List DirEnt)}
    {excl : List (String → Bool)} {maxDepth : Option Nat} {follow : Bool}
    {root : String} {n : Nat} {full real : String} {segs : List String}
    {depth : Nat} {entries : List DirEnt}
    (hd : depthExceeded maxDepth depth = false)
    (hf : findDir fs real = some entries) :
    walkDir fs excl maxDepth follow root (n + 1) full real segs depth =
      walkEnts (fun a b c d => walkDir fs excl maxDepth follow root n a b c d)
        excl follow root (sortEnts entries) full real segs depth := by
  simp only [walkDir, hd, hf]
  rfl

/-- Unfolding: a visit whose directory read fails contributes nothing. -/
theorem walkDir_succ_none {fs : List (String × List DirEnt)}
    {excl : List (String → Bool)} {maxDepth : Option Nat} {follow : Bool}
    {root : String} {n : Nat} {full real : String} {segs : List String}
    {depth : Nat}
    (hd : depthExceeded maxDepth depth = false)
    (hf : findDir fs real = none) :
    walkDir fs excl maxDepth follow root (n + 1) full real segs depth = some [] := by
  simp only [walkDir, hd, hf]
  rfl

/-- Unfolding: a visit past the depth limit returns before reading. -/
theorem walkDir_succ_depth {fs : List (String × List DirEnt)}
    {excl : List (String → Bool)} {maxDepth : Option Nat} {follow : Bool}
    {root : String} {n : Nat} {full real : String} {segs : List String}
    {depth : Nat}
    (hd : depthExceeded maxDepth depth = true) :
    walkDir fs excl maxDepth follow root (n + 1) full real segs depth = some [] := by
  simp only [walkDir, hd]
  rfl

/-- Two directory tables describe the same tree up to readdir order: same
keys row by row, each row's entries a permutation of the other's. -/
def PermFS : List (String × List DirEnt) → List (String × List DirEnt) → Prop
  | [], [] => True
  | p :: fs, q :: fs' => p.1 = q.1 ∧ List.Perm p.2 q.2 ∧ PermFS fs fs'
  | _, _ => False

theorem findDir_permFS : ∀ (fs fs' : List (String × List DirEnt)),
    PermFS fs fs' → ∀ r : String,
    (findDir fs r = none ∧ findDir fs' r = none) ∨
    ∃ l l', findDir fs r = some l ∧ findDir fs' r = some l' ∧ List.Perm l l' := by
  intro fs
  induction fs with
  | nil =>
    intro fs' h r
    cases fs' with
    | nil => exact Or.inl ⟨rfl, rfl⟩
    | cons q rest => exact h.elim
  | cons p fs ih =>
    intro fs' h r
    cases fs' with
    | nil => exact h.elim
    | cons q rest =>
      obtain ⟨hk, hperm, hrest⟩ := h
      obtain ⟨k₁, v₁⟩ := p
      obtain ⟨k₂, v₂⟩ := q
      simp only at hk hperm
      subst hk
      by_cases hr : k₁ = r
      · exact Or.inr ⟨v₁, v₂, by simp [findDir, hr], by simp [findDir, hr], hperm⟩
      · rcases ih rest hrest r with ⟨ha, hb⟩ | ⟨l, l', ha, hb, hp⟩
        · exact Or.inl ⟨by simp [findDir, hr, ha], by simp [findDir, hr, hb]⟩
        · exact Or.inr ⟨l, l', by simp [findDir, hr, ha], by simp [findDir, hr, hb], hp⟩

theorem walkEnt_congr
    {recur recur' : String → String → List String → Nat → Option (List FileRef)}
    (hrec : ∀ a b c d, recur a b c d = recur' a b c d)
    (excl : List (String → Bool)) (follow : Bool) (root : String)
    (e : DirEnt) (full real : String) (segs : List String) (depth : Nat) :
    walkEnt recur excl follow root e full real segs depth =
      walkEnt recur' excl follow root e full real segs depth := by
  simp only [walkEnt, hrec]

theorem walkEnts_congr
    {recur recur' : String → String → List String → Nat → Option (List FileRef)}
    (hrec : ∀ a b c d, recur a b c d = recur' a b c d)
    (excl : List (String → Bool)) (follow : Bool) (root : String) :
    ∀ (es : List DirEnt) (full real : String) (segs : List String) (depth : Nat),
      walkEnts recur excl follow root es full real segs depth =
      walkEnts recur' excl follow root es full real segs depth := by
  intro es
  induction es with
  | nil => intro full real segs depth; rfl
  | cons e es ih =>
    intro full real segs depth
    simp only [walkEnts, walkEnt_congr hrec, ih]

/-- The traversal result is invariant under any per-directory permutation of
the entries the filesystem returns, provided no directory holds two entries
whose names are equal case-insensitively. -/
theorem walkDir_permFS_eq (fs fs' : List (String × List DirEnt))
    (excl : List (String → Bool)) (maxDepth : Option Nat) (follow : Bool)
    (root : String) (hfs : PermFS fs fs')
    (hdist : ∀ p ∈ fs, List.Pairwise keyNe p.2) :
    ∀ (fuel : Nat) (full real : String) (segs : List String) (depth : Nat),
      walkDir fs excl maxDepth follow root fuel full real segs depth =
      walkDir fs' excl maxDepth follow root fuel full real segs depth := by
  intro fuel
  induction fuel with
  | zero => intro full real segs depth; rfl
  | succ n ih =>
    intro full real segs depth
    by_cases hd : depthExceeded maxDepth depth = true
    · rw [walkDir_succ_depth hd, walkDir_succ_depth hd]
    · have hd' : depthExceeded maxDepth depth = false := by
        simpa using hd
      rcases findDir_permFS fs fs' hfs real with ⟨h1, h2⟩ | ⟨l, l', h1, h2, hperm⟩
      · rw [walkDir_succ_none hd' h1, walkDir_succ_none hd' h2]
      · have hdl : List.Pairwise keyNe l := hdist (real, l) (findDir_mem h1)
        rw [walkDir_succ_some hd' h1, walkDir_succ_some hd' h2,
          sortEnts_congr hperm hdl]
        exact walkEnts_congr (fun a b c d => ih a b c d) excl follow root
          (sortEnts l') full real segs depth

/-- The absolute path of the node reached from `root` along relative
segments: what the chain of `path.join(dir, ent.name)` computes. -/
def joinRoot (root : String) (segs : List String) : String :=
  segs.foldl (fun acc nm => acc ++ "/" ++ nm) root

theorem joinRoot_snoc (root : String) (segs : List String) (nm : String) :
    joinRoot root (segs ++ [nm]) = joinRoot root segs ++ "/" ++ nm := by
  simp [joinRoot, List.foldl_append]

/-- Spec-side definition, following the words of spec §8: the contribution of
one entry to "the tree's files enumerated depth-first": a file contributes
its reference, a directory its recursive enumeration, and (in a tree with no
symlinks and no excluded entries) nothing else contributes. -/
def specListEnt (recur : String → List String → Option (List FileRef))
    (root : String) (e : DirEnt) (real : String) (segs : List String) :
    Option (List FileRef) :=
  match e with
  | DirEnt.file nm => some [⟨joinRoot root (segs ++ [nm]), segs ++ [nm]⟩]
  | DirEnt.dir nm => recur (real ++ "/" ++ nm) (segs ++ [nm])
  | DirEnt.symlink _ _ => some []
  | DirEnt.other _ => some []

/-- Spec-side definition: concatenation of the entry contributions in sorted
order. -/
def specListEnts (recur : String → List String → Option (List FileRef))
    (root : String) :
    List DirEnt → String → List String → Option (List FileRef)
  | [], _, _ => some []
  | e :: es, real, segs =>
    match specListEnt recur root e real segs with
    | none => none
    | some hs =>
      match specListEnts recur root es real segs with
      | none => none
      | some ts => some (hs ++ ts)

/-- Spec-side definition, following spec §8: "the tree's files enumerated in
case-insensitive name order at each directory level, depth-first", with the
same fuel discipline as the walk. -/
def specSortedListing (fs : List (String × List DirEnt)) (root : String) :
    Nat → String → List String → Option (List FileRef)
  | 0, _, _ => none
  | fuel + 1, real, segs =>
    match findDir fs real with
    | none => some []
    | some entries =>
      specListEnts (fun a b => specSortedListing fs root fuel a b) root
        (sortEnts entries) real segs

theorem walkEnt_eq_specListEnt (fs : List (String × List DirEnt)) (root : String)
    (n : Nat)
    (ih : ∀ (real : String) (segs : List String) (depth : Nat),
      walkDir fs [] none false root n (joinRoot root segs) real segs depth =
        specSortedListing fs root n real segs)
    (e : DirEnt) (real : String) (segs : List String) (depth : Nat) :
    walkEnt (fun a b c d => walkDir fs [] none false root n a b c d) [] false root
      e (joinRoot root segs) real segs depth =
    specListEnt (fun a b => specSortedListing fs root n a b) root e real segs := by
  cases e with
  | file nm =>
    simp only [walkEnt, specListEnt, matchesAnyRegex, List.any_nil,
      Bool.or_self, Bool.false_eq_true, if_false, DirEnt.name]
    rw [joinRoot_snoc]
  | dir nm =>
    simp only [walkEnt, specListEnt, matchesAnyRegex, List.any_nil,
      Bool.or_self, Bool.false_eq_true, if_false, DirEnt.name]
    rw [← joinRoot_snoc]
    exact ih (real ++ "/" ++ nm) (segs ++ [nm]) (depth + 1)
  | symlink nm r =>
    simp [walkEnt, specListEnt, matchesAnyRegex, DirEnt.name]
  | other nm =>
    simp [walkEnt, specListEnt, matchesAnyRegex, DirEnt.name]

theorem walkEnts_eq_specListEnts (fs : List (String × List DirEnt))
    (root : String) (n : Nat)
    (ih : ∀ (real : String) (segs : List String) (depth : Nat),
      walkDir fs [] none false root n (joinRoot root segs) real segs depth =
        specSortedListing fs root n real segs) :
    ∀ (es : List DirEnt) (real : String) (segs : List String) (depth : Nat),
      walkEnts (fun a b c d => walkDir fs [] none false root n a b c d) [] false
        root es (joinRoot root segs) real segs depth =
      specListEnts (fun a b => specSortedListing fs root n a b) root es real segs := by
  intro es
  induction es with
  | nil => intro real segs depth; rfl
  | cons e es ihe =>
    intro real segs depth
    simp only [walkEnts, specListEnts]
    rw [walkEnt_eq_specListEnt fs root n ih e real segs depth, ihe real segs depth]

/-- With no exclude rules, symlink following off and unbounded depth — the
exact configuration `main` uses — the walk is the spec's sorted depth-first
enumeration. -/
theorem walkDir_eq_specSortedListing (fs : List (String × List DirEnt))
    (root : String) :
    ∀ (fuel : Nat) (real : String) (segs : List String) (depth : Nat),
      walkDir fs [] none false root fuel (joinRoot root segs) real segs depth =
      specSortedListing fs root fuel real segs := by
  intro fuel
  induction fuel with
  | zero => intro real segs depth; rfl
  | succ n ih =>
    intro real segs depth
    have hd : depthExceeded none depth = false := rfl
    cases hf : findDir fs real with
    | none =>
      rw [walkDir_succ_none hd hf]
      simp [specSortedListing, hf]
    | some entries =>
      rw [walkDir_succ_some hd hf,
        walkEnts_eq_specListEnts fs root n (fun a b c => ih a b c)
          (sortEnts entries) real segs depth]
      simp [specSortedListing, hf]

/-- A directory with two files whose names differ only in case, in the two
possible readdir orders. -/
def tieFS1 : List (String × List DirEnt) :=
  [("/r", [DirEnt.file "A.txt", DirEnt.file "a.txt"])]

def tieFS2 : List (String × List DirEnt) :=
  [("/r", [DirEnt.file "a.txt", DirEnt.file "A.txt"])]

/-- C9 counterexample: the claim says the emitted list is independent of the
order in which the filesystem returns directory entries.  For a directory
holding both `A.txt` and `a.txt` the comparator ties (case-insensitive), the
stable sort preserves readdir order, and the two orders of the same tree
produce different file lists. -/
theorem c9_counterexample_case_tie :
    PermFS tieFS1 tieFS2 ∧
    collectFiles tieFS1 [] none false "/r" 3 ≠
      collectFiles tieFS2 [] none false "/r" 3 := by
  constructor
  · exact ⟨rfl, List.Perm.swap _ _ _, trivial⟩
  · decide

/-- C9 (amended): for trees traversed with `main`'s configuration (no
excludes, no symlink following, unbounded depth), the emitted file list is
the depth-first enumeration with each level sorted by the case-insensitive
comparator, and it is independent of the order in which the filesystem
returns directory entries **provided** no directory holds two entries whose
names are equal case-insensitively; when such ties exist the stable sort
preserves the filesystem's order, so determinism only holds up to ties. -/
theorem c9_sorted_order_deterministic (fs fs' : List (String × List DirEnt))
    (root : String) (hfs : PermFS fs fs')
    (hdist : ∀ p ∈ fs, List.Pairwise keyNe p.2) (fuel : Nat) :
    collectFiles fs [] none false root fuel =
      collectFiles fs' [] none false root fuel ∧
    collectFiles fs [] none false root fuel =
      specSortedListing fs root fuel root [] := by
  constructor
  · exact walkDir_permFS_eq fs fs' [] none false root hfs hdist fuel root root [] 0
  · exact walkDir_eq_specSortedListing fs root fuel root [] 0

/-- A tie-free directory in two readdir orders. -/
def tieFreeFS1 : List (String × List DirEnt) :=
  [("/r", [DirEnt.file "b.txt", DirEnt.file "A.txt"])]

def tieFreeFS2 : List (String × List DirEnt) :=
  [("/r", [DirEnt.file "A.txt", DirEnt.file "b.txt"])]

/-- C9 witness: on a tie-free directory the two readdir orders agree and
match the spec enumeration. -/
theorem c9_sorted_order_deterministic_witness :
    collectFiles tieFreeFS1 [] none false "/r" 3 =
      collectFiles tieFreeFS2 [] none false "/r" 3 ∧
    collectFiles tieFreeFS1 [] none false "/r" 3 =
      specSortedListing tieFreeFS1 "/r" 3 "/r" [] :=
  c9_sorted_order_deterministic tieFreeFS1 tieFreeFS2 "/r"
    ⟨rfl, List.Perm.swap _ _ _, trivial⟩ (by decide) 3

/-- The 48-equals-signs separator literal of index.js lines 231 and 233,
assembled from three 16-character chunks. -/
def sepLine : String :=
  "================" ++ "================" ++ "================"

/-- `buildContext` (index.js lines 212-244), the Assembler: for each file in
order, read it (a failed read skips the file), skip it if the external
binary sniffer flags it, otherwise decode the buffer and append the header
block and fenced content.  `isBin` is the `isbinaryfile` routine, `decode`
is `buffer.toString('utf8')` and `readFile` the content map of the
filesystem — all external to the repository's own code.  `path.resolve` on
the already absolute `f.full` is the identity; the source's `out +=`
accumulation is the same string by associativity of concatenation. -/
def buildContext (isBin : List Nat → Bool) (decode : List Nat → String)
    (readFile : String → Option (List Nat)) : List FileRef → String
  | [] => ""
  | f :: rest =>
    match readFile f.full with
    | none => buildContext isBin decode readFile rest
    | some buffer =>
      if isBin buffer then buildContext isBin decode readFile rest
      else
        let content := decode buffer
        let lang := getLangForFile f.full
        let fence := fenceFor content
        let fenceStart := if lang ≠ "" then fence ++ lang ++ "\n" else fence ++ "\n"
        let fenceEnd := "\n" ++ fence ++ "\n\n"
        "\n\n" ++ sepLine ++ "\n" ++
          "FILE: " ++ f.full ++ "\n" ++
          sepLine ++ "\n\n" ++
          fenceStart ++ content ++ fenceEnd ++
          buildContext isBin decode readFile rest

/-- C8: a file whose buffer holds a NUL byte is classified binary and leaves
no trace in the assembled document: the document over a list containing it
equals the document over the list without it, whatever its extension maps
to.  The binary classifier is the external `isbinaryfile` package, modelled
from the spec's clause that a NUL byte anywhere in the buffer is sufficient
to classify as binary (the hypothesis `hbin`). -/
theorem c8_nul_file_leaves_no_trace (isBin : List Nat → Bool)
    (decode : List Nat → String) (readFile : String → Option (List Nat))
    (hbin : ∀ buf : List Nat, 0 ∈ buf → isBin buf = true)
    (xs ys : List FileRef) (f : FileRef) (buf : List Nat)
    (hread : readFile f.full = some buf) (hnul : 0 ∈ buf) :
    buildContext isBin decode readFile (xs ++ f :: ys) =
      buildContext isBin decode readFile (xs ++ ys) := by
  induction xs with
  | nil =>
    simp only [List.nil_append, buildContext, hread, hbin buf hnul, if_true]
  | cons g xs ih =>
    have ih' : buildContext isBin decode readFile (xs.append (f :: ys)) =
        buildContext isBin decode readFile (xs.append ys) := ih
    simp only [List.cons_append, buildContext]
    cases hg : readFile g.full with
    | none => exact ih
    | some b =>
      by_cases hb : isBin b = true
      · simp only [hb, if_true]
        exact ih
      · simp only [hb, Bool.false_eq_true, if_false]
        rw [ih']

/-- C8 witness: a two-file list where the first file's buffer is
`[0, 1, 2]` assembles to the same document as the list without it. -/
theorem c8_nul_file_leaves_no_trace_witness :
    buildContext (fun l => decide (0 ∈ l)) (fun _ => "text")
      (fun p => if p = "/r/blob.bin" then some [0, 1, 2]
        else if p = "/r/b.txt" then some [104] else none)
      ([] ++ FileRef.mk "/r/blob.bin" ["blob.bin"] :: [FileRef.mk "/r/b.txt" ["b.txt"]]) =
    buildContext (fun l => decide (0 ∈ l)) (fun _ => "text")
      (fun p => if p = "/r/blob.bin" then some [0, 1, 2]
        else if p = "/r/b.txt" then some [104] else none)
      ([] ++ [FileRef.mk "/r/b.txt" ["b.txt"]]) :=
  c8_nul_file_leaves_no_trace _ _ _
    (fun buf h => by simpa using h) [] [FileRef.mk "/r/b.txt" ["b.txt"]]
    (FileRef.mk "/r/blob.bin" ["blob.bin"]) [0, 1, 2] (by decide) (by decide)

/-- The parsed argument record of `parseArgs` (index.js line 9). -/
structure Args where
  input : Option String
  exclude : Option String
  output : Option String
  help : Bool
  dryRun : Bool
  maxDepth : Option Nat
  followSymlinks : Bool
deriving DecidableEq

/-- The initial record `{ input: null, exclude: null, output: null,
help: false, dryRun: false, maxDepth: Infinity, followSymlinks: false }`;
`none` models both `null`/`undefined` and the `Infinity` depth default. -/
def initArgs : Args :=
  ⟨none, none, none, false, false, none, false⟩

/-- `Number(...)` as applied to a `--max-depth` value, modelled for
non-negative decimal integer literals; any other string behaves as `NaN`,
which the depth guard treats exactly like `Infinity`, so both map to
`none`. -/
def natOfChars : List Char → Nat → Option Nat
  | [], acc => some acc
  | c :: rest, acc =>
    if c.isDigit then natOfChars rest (acc * 10 + (c.toNat - 48)) else none

def parseNumber (s : String) : Option Nat :=
  match s.toList with
  | [] => none
  | l => natOfChars l 0

/-- `a.split('=')[1]`, the value part of a `--key=value` token. -/
def splitEqSnd (a : String) : Option String :=
  (a.splitOn "=").get? 1

/-- The argument loop of `parseArgs` (index.js lines 11-29), processing
`argv` from index 2: flag tokens consume the following token as their value
(`argv[++i]`, `undefined` when past the end), `--help` breaks out of the
loop, and unrecognized tokens are probed for the `--key=value` forms. -/
def parseLoop : Args → List String → Args
  | args, [] => args
  | args, a :: rest =>
    if a = "-h" || a = "--help" then { args with help := true }
    else if a = "-i" || a = "--input" then
      match rest with
      | [] => { args with input := none }
      | v :: rest' => parseLoop { args with input := some v } rest'
    else if a = "-e" || a = "--exclude" then
      match rest with
      | [] => { args with exclude := none }
      | v :: rest' => parseLoop { args with exclude := some v } rest'
    else if a = "-o" || a = "--output" then
      match rest with
      | [] => { args with output := none }
      | v :: rest' => parseLoop { args with output := some v } rest'
    else if a = "-d" || a = "--dry-run" then
      parseLoop { args with dryRun := true } rest
    else if a = "-m" || a = "--max-depth" then
      match rest with
      | [] => { args with maxDepth := none }
      | v :: rest' => parseLoop { args with maxDepth := parseNumber v } rest'
    else if a = "-l" || a = "--follow-symlinks" then
      parseLoop { args with followSymlinks := true } rest
    else
      let a1 := if strStartsWith a "--input=" then { args with input := splitEqSnd a } else args
      let a2 := if strStartsWith a "--exclude=" then { a1 with exclude := splitEqSnd a } else a1
      let a3 := if strStartsWith a "--output=" then { a2 with output := splitEqSnd a } else a2
      let a4 := if strStartsWith a "--dry-run=" then { a3 with dryRun := true } else a3
      let a5 := if strStartsWith a "--max-depth=" then
          { a4 with maxDepth := (splitEqSnd a).bind parseNumber } else a4
      let a6 := if strStartsWith a "--follow-symlinks=" then
          { a5 with followSymlinks := true } else a5
      parseLoop a6 rest

/-- `parseArgs(argv)` (index.js lines 8-32). -/
def parseArgs (argv : List String) : Args :=
  parseLoop initArgs (argv.drop 2)

/-- The filesystem as `main` sees it: the directory table of the traversal
plus the file-content map consulted by `stat` and `readFile`. -/
structure FSModel where
  dirs : List (String × List DirEnt)
  contents : String → Option (List Nat)

/-- `fs.promises.stat(inputPath)` as used on index.js lines 254-263: `none`
when the path does not exist (the catch of line 257), otherwise whether it
is a directory. -/
def statIsDir (fs : FSModel) (p : String) : Option Bool :=
  match findDir fs.dirs p with
  | some _ => some true
  | none =>
    match fs.contents p with
    | some _ => some false
    | none => none

/-- `compileExcludeRegexes(excludeStr)` (index.js lines 51-61) as called from
`main`: a falsy exclude string yields no rules; otherwise the comma-split,
trimmed, non-empty patterns are compiled by `compileRx` — the abstracted
successful `new RegExp` path (the failing fallback path is analysed
separately through `compileOne`). -/
def compileExcludeRegexes (compileRx : String → (String → Bool)) :
    Option String → List (String → Bool)
  | none => []
  | some s =>
    if s = "" then []
    else (((s.splitOn ",").map String.trim).filter (fun t => !(t == ""))).map compileRx

/-- The observable outcome of a run of `main`: the `process.exit` code (0
for a run that reaches the write) and the invocation of
`fs.promises.writeFile(outPath, context)`, if any. -/
structure RunResult where
  exitCode : Nat
  wrote : Option (String × String)
deriving DecidableEq

/-- `main()` (index.js lines 246-284).  Line 247 destructures only `input`,
`exclude`, `output` and `help` from the parsed arguments: `dryRun`,
`maxDepth` and `followSymlinks` are parsed but never consulted.  Line 268
calls `collectFiles(inputPath, excludeRegexes)` with its remaining
parameters left at their defaults, `Infinity` (`none`) and `false`.
`path.resolve` is the identity on the absolute paths used here, and the
default output path `path.resolve(process.cwd(), DEFAULT_OUTPUT)` is
modelled as `"context.md"`.  The write is modelled as succeeding; `none`
signals traversal fuel exhaustion, which the unfuelled source cannot
observe. -/
def mainModel (isBin : List Nat → Bool) (decode : List Nat → String)
    (compileRx : String → (String → Bool)) (fs : FSModel)
    (argv : List String) (fuel : Nat) : Option RunResult :=
  let a := parseArgs argv
  if a.help || a.input.isNone then
    some ⟨if a.help then 0 else 1, none⟩
  else
    let inputPath := a.input.getD ""
    match statIsDir fs inputPath with
    | none => some ⟨2, none⟩
    | some false => some ⟨3, none⟩
    | some true =>
      let excludeRegexes := compileExcludeRegexes compileRx a.exclude
      match collectFiles fs.dirs excludeRegexes none false inputPath fuel with
      | none => none
      | some files =>
        if files.length = 0 then some ⟨4, none⟩
        else
          let context := buildContext isBin decode fs.contents files
          let outPath := a.output.getD "context.md"
          some ⟨0, some (outPath, context)⟩

/-- The spec's clause (a) for the external binary sniffer: a NUL byte
anywhere in the buffer classifies the file as binary. -/
def nulBin : List Nat → Bool := fun buffer => decide (0 ∈ buffer)

/-- A regex compiler stand-in for runs without `--exclude`, where it is
never invoked. -/
def noRx : String → (String → Bool) := fun _ _ => false

/-- A root with a single text file, the tree of the `--dry-run` scenario. -/
def fsDry : FSModel :=
  ⟨[("/r", [DirEnt.file "a.txt"])],
   fun p => if p = "/r/a.txt" then some [104, 105] else none⟩

/-- C3: the claim says `--dry-run` reports the file list without invoking
the write step.  `parseArgs` does record `dryRun`, but `main` (line 247)
destructures only `input`, `exclude`, `output` and `help` and never consults
`dryRun`: on a one-file tree the run still invokes `writeFile` with the
assembled document and exits 0. -/
theorem c3_dry_run_still_writes :
    (parseArgs ["node", "merge-to-md", "--input", "/r", "--dry-run"]).dryRun = true ∧
    mainModel nulBin (fun _ => "hi") noRx fsDry
      ["node", "merge-to-md", "--input", "/r", "--dry-run"] 3 =
    some ⟨0, some ("context.md", buildContext nulBin (fun _ => "hi") fsDry.contents
      [⟨"/r/a.txt", ["a.txt"]⟩])⟩ :=
  ⟨by decide, by decide⟩

/-- One root file and one subdirectory with a file: the `--max-depth 0`
scenario tree. -/
def fsDepth : FSModel :=
  ⟨[("/r", [DirEnt.dir "sub", DirEnt.file "a.txt"]),
    ("/r/sub", [DirEnt.file "b.txt"])],
   fun p => if p = "/r/a.txt" then some [97]
     else if p = "/r/sub/b.txt" then some [98] else none⟩

set_option maxRecDepth 4000 in
/-- C4: the claim says `--max-depth 0` keeps the traversal at the root's
immediate entries.  `collectFiles` itself honours `maxDepth = 0` (second
conjunct), and `parseArgs` records the flag (first conjunct), but `main`
(line 268) calls `collectFiles(inputPath, excludeRegexes)` without
forwarding it, so the depth stays at its `Infinity` default and the output
document still contains the subdirectory's file (third conjunct). -/
theorem c4_max_depth_never_forwarded :
    (parseArgs ["node", "merge-to-md", "--input", "/r", "--max-depth", "0"]).maxDepth
      = some 0 ∧
    collectFiles fsDepth.dirs [] (some 0) false "/r" 5 =
      some [⟨"/r/a.txt", ["a.txt"]⟩] ∧
    mainModel nulBin (fun _ => "c") noRx fsDepth
      ["node", "merge-to-md", "--input", "/r", "--max-depth", "0"] 5 =
    some ⟨0, some ("context.md", buildContext nulBin (fun _ => "c") fsDepth.contents
      [⟨"/r/a.txt", ["a.txt"]⟩, ⟨"/r/sub/b.txt", ["sub", "b.txt"]⟩])⟩ :=
  ⟨by decide, by decide, by decide⟩

/-- A tree whose only file is binary (buffer `[0, 1, 2]`). -/
def fsAllBinary : FSModel :=
  ⟨[("/r", [DirEnt.file "blob.bin"])],
   fun p => if p = "/r/blob.bin" then some [0, 1, 2] else none⟩

/-- C5 counterexample: the claim demands exit code 4 and no output when zero
eligible files remain after exclusion **and binary filtering**.  On a tree
whose only file is binary, `main`'s emptiness check (line 269) runs before
binary filtering, so the run proceeds, assembles an empty document, writes
it and exits 0 — not 4, and an output file is produced. -/
theorem c5_counterexample_all_binary :
    fsAllBinary.contents "/r/blob.bin" = some [0, 1, 2] ∧ (0 : Nat) ∈ [0, 1, 2] ∧
    mainModel nulBin (fun _ => "") noRx fsAllBinary
      ["node", "merge-to-md", "--input", "/r"] 3 =
      some ⟨0, some ("context.md", "")⟩ :=
  ⟨rfl, by decide, by decide⟩

/-- C5 (amended): exit code 4 with no write occurs exactly when the
traversal — after exclusion pruning but before any binary filtering — finds
zero files; a non-empty traversal always reaches the write step, so an
all-binary tree writes an empty document with exit 0. -/
theorem c5_exit4_only_before_binary_filter
    (isBin : List Nat → Bool) (decode : List Nat → String)
    (compileRx : String → (String → Bool)) (fs : FSModel) (root : String)
    (fuel : Nat) (hdir : ∃ l, findDir fs.dirs root = some l)
    (hempty : collectFiles fs.dirs [] none false root fuel = some []) :
    mainModel isBin decode compileRx fs
      ["node", "merge-to-md", "--input", root] fuel = some ⟨4, none⟩ := by
  obtain ⟨l, hl⟩ := hdir
  have ha : parseArgs ["node", "merge-to-md", "--input", root] =
      ⟨some root, none, none, false, false, none, false⟩ := rfl
  simp [mainModel, ha, statIsDir, hl, compileExcludeRegexes, hempty]

/-- C5 witness: an empty readable root directory exits with code 4 and
writes nothing. -/
theorem c5_exit4_only_before_binary_filter_witness :
    mainModel nulBin (fun _ => "") noRx ⟨[("/e", [])], fun _ => none⟩
      ["node", "merge-to-md", "--input", "/e"] 1 = some ⟨4, none⟩ :=
  c5_exit4_only_before_binary_filter nulBin (fun _ => "") noRx
    ⟨[("/e", [])], fun _ => none⟩ "/e" 1 ⟨[], rfl⟩ (by decide)
